import Mathlib

/-!
Shallow embedding of `src/lt2j.py` (a linear batch script that reads
worklog rows from a spreadsheet and creates or removes matching Jira
worklogs), together with proofs of the specification claims.

Modelling conventions:
* Spreadsheet cells are trusted-typed values (`Cell`); a cell access such
  as `date.year` on a wrongly-typed cell raises in Python, which we model
  by `RowResult.crash` (the uncaught exception terminates the run).
* Python `datetime` values are second-granular (the script builds
  `started_dt` from second-granular fields, and the remote `started`
  string is parsed with format `%Y-%m-%dT%H:%M:%S.000%z`, which forces
  microsecond 0).  Aware-datetime equality in Python compares absolute
  instants (naive fields minus UTC offset), which `dtEq` reproduces via a
  civil-calendar day count.
* `get_localzone()` is modelled as a fixed UTC offset supplied by the
  environment (`Env.tzOffset`); no claim under verification exercises a
  DST transition.
* External collaborators (pyexcel, the jira client, argparse) are part of
  the environment: the sheet contents, the authenticated user key and the
  remote listing/fetch results are `Env` fields, and every observable
  interaction (console message, sheet load, API call) is recorded as an
  `Event` in a trace.  Remote calls are modelled as succeeding (claims
  about them are conditional on success; an API failure aborts the run in
  the source and is out of scope here).
* Python dict semantics: `worklogs` is keyed by the worklog resource
  objects themselves (object identity, so fresh objects never collide)
  and iterates in insertion order; we model it as an association list in
  insertion order whose keys are the listed worklog objects.  `issues` is
  keyed by the issue id string.
* argparse with `choices=["create", "remove"]` rejects any other
  subcommand at parse time, printing a usage error and exiting with
  status 2 (standard library behaviour); the script body never runs.
-/

namespace Lt2j

/-- A spreadsheet cell as yielded by the (external) pyexcel layer:
date-typed, time-typed, or a plain string. -/
inductive Cell where
  | date (year month day : Int)
  | time (hour minute second : Int)
  | str (s : String)
deriving DecidableEq

/-- Python attribute access `c.year`/`c.month`/`c.day`: succeeds only on a
date-typed cell. -/
def Cell.asDate : Cell → Option (Int × Int × Int)
  | .date y m d => some (y, m, d)
  | _ => none

/-- Python attribute access `c.hour`/`c.minute`/`c.second`: succeeds only
on a time-typed cell. -/
def Cell.asTime : Cell → Option (Int × Int × Int)
  | .time h m s => some (h, m, s)
  | _ => none

/-- Use of a cell as a string (issue id, description). -/
def Cell.asStr : Cell → Option String
  | .str s => some s
  | _ => none

/-- A second-granular aware datetime: naive civil fields plus a UTC
offset in seconds (seconds east of UTC, as `utcoffset()` reports). -/
structure DT where
  year : Int
  month : Int
  day : Int
  hour : Int
  minute : Int
  second : Int
  offset : Int
deriving DecidableEq

/-- Days from civil date to the 1970-01-01 epoch (Hinnant's algorithm,
floor division). -/
def daysFromCivil (y m d : Int) : Int :=
  let y2 := if m ≤ 2 then y - 1 else y
  let era := y2.fdiv 400
  let yoe := y2 - era * 400
  let mp := if 2 < m then m - 3 else m + 9
  let doy := (153 * mp + 2).fdiv 5 + d - 1
  let doe := yoe * 365 + yoe.fdiv 4 - yoe.fdiv 100 + doy
  era * 146097 + doe - 719468

/-- Seconds of the naive (offset-ignoring) part of a `DT` since the
epoch. -/
def DT.naiveSec (t : DT) : Int :=
  daysFromCivil t.year t.month t.day * 86400
    + t.hour * 3600 + t.minute * 60 + t.second

/-- The absolute instant a `DT` denotes, in seconds since the epoch. -/
def DT.instant (t : DT) : Int := t.naiveSec - t.offset

/-- Python aware-datetime equality `a == b`: equality of absolute
instants (offsets participate through the instant, exactly as
`datetime.__eq__` subtracts `utcoffset()`). -/
def dtEq (a b : DT) : Bool := a.instant == b.instant

/-- A remote worklog as seen by this program: the fields the script reads
from `worklog.raw` — `author.key`, `started` (already parsed from the
fixed `%Y-%m-%dT%H:%M:%S.000%z` format into its civil fields and
offset), `timeSpentSeconds` (an integer after `int(...)`), and `id`. -/
structure RemoteWorklog where
  authorKey : String
  started : DT
  timeSpentSeconds : Int
  id : String
deriving DecidableEq

/-- The parsed command line (`args` in the source).  `command` is kept as
a raw string so that argparse's `choices` check is itself part of the
model. -/
structure Args where
  debug : Bool
  yolo : Bool
  file : String
  sheetName : String
  startRow : Int
  endRow : Int
  jiraUrl : String
  jiraToken : String
  command : String

/-- The external world: whether the spreadsheet file exists, the rows the
sheet yields for the configured window, the authenticated user's key, the
remote listing of worklogs per issue, per-worklog detail fetch results,
and the local timezone offset in seconds. -/
structure Env where
  fileExists : Bool
  sheet : List (List Cell)
  userKey : String
  listWorklogs : String → List RemoteWorklog
  fetchWorklog : String → RemoteWorklog → RemoteWorklog
  tzOffset : Int

/-- Console messages the script can print (stdout and stderr alike;
debug-only output is omitted).  Each constructor corresponds to one
`print` site in the source, carrying the data interpolated there. -/
inductive Msg where
  | dryRunNotice
  | errFileMissing (file : String)
  | errRowIndexOrder
  | errRowIndexEqual
  | warnShortRow (row : List Cell)
  | adding (issue : String) (started : DT) (durationSec : Int) (descSnippet : String)
  | wouldAdd (issue : String) (started : DT) (durationSec : Int) (descSnippet : String)
  | loadingWorklogs (issue : String)
  | dot
  | endLoading
  | deleting (worklogId issue : String)
  | wouldDelete (worklogId issue : String)
  | unknownCommand (cmd : String)
  | usageInvalidChoice (cmd : String)
deriving DecidableEq

/-- Observable events of a run, in order: console output, the sheet
load, Jira authentication, and each remote API call the script makes. -/
inductive Event where
  | print (m : Msg)
  | loadSheet (file sheetName : String) (startRow rowLimit : Int)
  | authenticate
  | addWorklog (issue : String) (started : DT) (timeSpentSeconds : Int) (comment : String)
  | listWorklogs (issue : String)
  | fetchWorklog (issue worklogId : String)
  | deleteWorklog (worklogId : String)
deriving DecidableEq

/-- How a run ends: a normal fall-off-the-end (exit status 0), an
explicit `exit(n)`, or an uncaught Python exception. -/
inductive Outcome where
  | normal
  | exited (code : Nat)
  | crashed
deriving DecidableEq

/-- A whole run: its event trace and how it ended. -/
structure RunResult where
  trace : List Event
  outcome : Outcome
deriving DecidableEq

/-- The canonical per-row record both flows compute (spec:
WorklogRecord). -/
structure WorklogRecord where
  started : DT
  durationSeconds : Int
  issueId : String
  description : String
deriving DecidableEq

/-- Result of normalizing one raw row: skipped (fewer fields than the
field map requires), crashed (a wrongly-typed cell raised), or a
record. -/
inductive RowResult where
  | skip
  | crash
  | ok (rec : WorklogRecord)
deriving DecidableEq

/-- The field map `fmap` of the source: positions 0..5 are date,
time_from, time_to, duration, issue_id, description; its length is 6. -/
def fmapLen : Nat := 6

/-- Row normalization, shared verbatim by both flows (source lines
85-98 and 121-133): require at least `fmapLen` fields, build
`started_dt` from the date and time_from cells with the local offset,
and `duration_sec = duration.second + duration.minute*60 +
duration.hour*3600`.  `time_to` (position 2) is read but used in no
computation. -/
def normalizeRow (tz : Int) (row : List Cell) : RowResult :=
  if row.length < fmapLen then .skip
  else
    match (row.getD 0 (.str "")).asDate, (row.getD 1 (.str "")).asTime,
          (row.getD 3 (.str "")).asTime, (row.getD 4 (.str "")).asStr,
          (row.getD 5 (.str "")).asStr with
    | some (y, mo, d), some (hh, mi, ss), some (dh, dm, ds),
        some issue, some desc =>
        .ok { started := ⟨y, mo, d, hh, mi, ss, tz⟩
              durationSeconds := ds + dm * 60 + dh * 3600
              issueId := issue
              description := desc }
    | _, _, _, _, _ => .crash

/-- One create-flow iteration (source lines 81-106): warn and continue on
a short row, otherwise report, and in yolo mode also call
`jira.add_worklog`.  `none` models an uncaught exception. -/
def processCreateRow (a : Args) (tz : Int) (row : List Cell) :
    Option (List Event × Unit) :=
  match normalizeRow tz row with
  | .skip => some ([.print (.warnShortRow row)], ())
  | .crash => none
  | .ok r =>
      if a.yolo then
        some ([.print (.adding r.issueId r.started r.durationSeconds
                 (r.description.take 36)),
               .addWorklog r.issueId r.started r.durationSeconds
                 r.description], ())
      else
        some ([.print (.wouldAdd r.issueId r.started r.durationSeconds
                 (r.description.take 24))], ())

/-- The remove flow's mutable state: the `issues` dict (issue id →
listed worklogs) and the `worklogs` dict (listed worklog object →
fetched detail object, in insertion order). -/
structure RemoveState where
  issues : List (String × List RemoteWorklog)
  worklogs : List (RemoteWorklog × RemoteWorklog)
deriving DecidableEq

/-- Python `issue_id in issues` (dict key membership). -/
def hasIssue (issues : List (String × List RemoteWorklog)) (i : String) : Bool :=
  issues.any (fun p => p.1 == i)

/-- The equality heuristic of source line 159: author key, started
instant, and duration all equal the current record's. -/
def matchesRecord (userKey : String) (r : WorklogRecord)
    (w : RemoteWorklog) : Bool :=
  w.authorKey == userKey && dtEq w.started r.started
    && w.timeSpentSeconds == r.durationSeconds

/-- What the scan does to one matching worklog (source lines 161-165):
in yolo mode print and call `worklog.delete()`, otherwise only report. -/
def scanActs (a : Args) (r : WorklogRecord) (w : RemoteWorklog) :
    List Event :=
  if a.yolo then
    [.print (.deleting w.id r.issueId), .deleteWorklog w.id]
  else
    [.print (.wouldDelete w.id r.issueId)]

/-- The matching scan of source lines 153-168: iterate the `worklogs`
dict (its keys, in insertion order), and for each match either delete it
(yolo) or report it; non-matches produce nothing, and scanning always
continues past a match. -/
def scanEvents (a : Args) (userKey : String) (r : WorklogRecord)
    (ws : List (RemoteWorklog × RemoteWorklog)) : List Event :=
  ws.flatMap (fun p =>
    if matchesRecord userKey r p.1 then scanActs a r p.1 else [])

/-- The cache-population events of source lines 140-149: the
`jira.worklogs` listing call, the "Loading worklogs" line, then per
listed worklog a dot and a `jira.worklog` detail fetch, then a
newline. -/
def populateEvents (issue : String) (listed : List RemoteWorklog) :
    List Event :=
  .listWorklogs issue :: .print (.loadingWorklogs issue) ::
    listed.flatMap (fun w => [.print .dot, .fetchWorklog issue w.id])
    ++ [.print .endLoading]

/-- One remove-flow iteration (source lines 117-168): warn and continue
on a short row; otherwise populate the caches on first encounter of the
issue id, then scan the whole `worklogs` dict against the record. -/
def processRemoveRow (env : Env) (a : Args) (st : RemoveState)
    (row : List Cell) : Option (List Event × RemoveState) :=
  match normalizeRow env.tzOffset row with
  | .skip => some ([.print (.warnShortRow row)], st)
  | .crash => none
  | .ok r =>
      let st' :=
        if hasIssue st.issues r.issueId then st
        else
          let listed := env.listWorklogs r.issueId
          { issues := st.issues ++ [(r.issueId, listed)]
            worklogs := st.worklogs
              ++ listed.map (fun w => (w, env.fetchWorklog r.issueId w)) }
      let popEvts :=
        if hasIssue st.issues r.issueId then []
        else populateEvents r.issueId (env.listWorklogs r.issueId)
      some (popEvts ++ scanEvents a env.userKey r st'.worklogs, st')

/-- Fold a per-row step over the sheet, concatenating events;
`none` from a step (an uncaught exception) aborts the run, keeping the
events already produced. -/
def foldRows {σ : Type} (step : σ → List Cell → Option (List Event × σ)) :
    List (List Cell) → σ → List Event × Option σ
  | [], st => ([], some st)
  | row :: rest, st =>
      match step st row with
      | none => ([], none)
      | some (evts, st') =>
          let r := foldRows step rest st'
          (evts ++ r.1, r.2)

/-- Turn a fold result into an outcome: a surviving state means the
script fell off the end (exit status 0). -/
def foldOutcome {σ : Type} : Option σ → Outcome
  | some _ => .normal
  | none => .crashed

/-- The script body after argument parsing (source lines 44-173): the
dry-run notice, the file-existence and row-window checks, the sheet
load, authentication, then the selected flow; the trailing `else` branch
is the unknown-command abort of lines 170-173. -/
def mainProg (env : Env) (a : Args) : RunResult :=
  let e0 : List Event := if a.yolo then [] else [.print .dryRunNotice]
  if !env.fileExists then
    ⟨e0 ++ [.print (.errFileMissing a.file)], .exited 1⟩
  else if a.endRow > 0 && a.endRow < a.startRow then
    ⟨e0 ++ [.print .errRowIndexOrder], .exited 1⟩
  else if a.endRow == a.startRow then
    ⟨e0 ++ [.print .errRowIndexEqual], .exited 1⟩
  else
    let e1 := e0 ++ [.loadSheet a.file a.sheetName a.startRow
      (a.endRow - a.startRow), .authenticate]
    if a.command == "create" then
      let r := foldRows (fun _ => processCreateRow a env.tzOffset) env.sheet ()
      ⟨e1 ++ r.1, foldOutcome r.2⟩
    else if a.command == "remove" then
      let r := foldRows (processRemoveRow env a) env.sheet ⟨[], []⟩
      ⟨e1 ++ r.1, foldOutcome r.2⟩
    else
      ⟨e1 ++ [.print (.unknownCommand a.command)], .exited 1⟩

/-- The whole program: argparse first (`choices=["create", "remove"]`
rejects any other subcommand with a usage error and exit status 2,
before the script body runs), then `mainProg`. -/
def run (env : Env) (a : Args) : RunResult :=
  if a.command == "create" || a.command == "remove" then
    mainProg env a
  else
    ⟨[.print (.usageInvalidChoice a.command)], .exited 2⟩

/-- Events that mutate remote state: worklog creation and deletion. -/
def isMutation : Event → Bool
  | .addWorklog _ _ _ _ => true
  | .deleteWorklog _ => true
  | _ => false

/-- Events that touch anything external: the spreadsheet file or the
remote API. -/
def isExternalAccess : Event → Bool
  | .loadSheet _ _ _ _ => true
  | .authenticate => true
  | .addWorklog _ _ _ _ => true
  | .listWorklogs _ => true
  | .fetchWorklog _ _ => true
  | .deleteWorklog _ => true
  | _ => false

/-- Console messages that report an error (the fatal-configuration
messages and argparse's usage error). -/
def isErrorPrint : Event → Bool
  | .print (.errFileMissing _) => true
  | .print .errRowIndexOrder => true
  | .print .errRowIndexEqual => true
  | .print (.unknownCommand _) => true
  | .print (.usageInvalidChoice _) => true
  | _ => false

/-- A worklog-deletion API call. -/
def isDelete : Event → Bool
  | .deleteWorklog _ => true
  | _ => false

/-- The "Unknown command ..." message of source line 172. -/
def isUnknownCmdMsg : Event → Bool
  | .print (.unknownCommand _) => true
  | _ => false

/-- Whether some row of the sheet normalizes successfully to a record
for issue `i`. -/
def mentionsIssue (tz : Int) (rows : List (List Cell)) (i : String) :
    Bool :=
  rows.any (fun row =>
    match normalizeRow tz row with
    | .ok r => r.issueId == i
    | _ => false)

/-- Modelled from the spec (the comparison program of the
refinement claim): the remove flow of a program that "skips storing the
fetched detail entirely" — its cache keeps only the worklog objects
returned by the listing call.  The detail fetches themselves still
happen (and are assumed to succeed); only their results are
discarded. -/
structure RemoveStateV where
  issues : List (String × List RemoteWorklog)
  worklogs : List RemoteWorklog
deriving DecidableEq

/-- Modelled from the spec: the comparison program's matching scan,
over the listed worklog objects directly. -/
def scanEventsV (a : Args) (userKey : String) (r : WorklogRecord)
    (ws : List RemoteWorklog) : List Event :=
  ws.flatMap (fun w =>
    if matchesRecord userKey r w then scanActs a r w else [])

/-- Modelled from the spec: one remove-flow iteration of the comparison
program that does not store fetched detail objects. -/
def processRemoveRowV (env : Env) (a : Args) (st : RemoveStateV)
    (row : List Cell) : Option (List Event × RemoveStateV) :=
  match normalizeRow env.tzOffset row with
  | .skip => some ([.print (.warnShortRow row)], st)
  | .crash => none
  | .ok r =>
      let st' :=
        if hasIssue st.issues r.issueId then st
        else
          { issues := st.issues ++ [(r.issueId, env.listWorklogs r.issueId)]
            worklogs := st.worklogs ++ env.listWorklogs r.issueId }
      let popEvts :=
        if hasIssue st.issues r.issueId then []
        else populateEvents r.issueId (env.listWorklogs r.issueId)
      some (popEvts ++ scanEventsV a env.userKey r st'.worklogs, st')

/-! ### Concrete fixtures

A small concrete world used by the witness and counterexample theorems:
issue `PROJ-1` has two remote worklogs, one authored by the
authenticated user `U` and one by `V`, both started 2024-03-01 09:00:00
at offset +01:00 with duration 5400 s; the sheet has a matching row for
`PROJ-1`, a short row, and a second `PROJ-1` row. -/

/-- Fixture: the remote worklog authored by the authenticated user. -/
def wU : RemoteWorklog := ⟨"U", ⟨2024, 3, 1, 9, 0, 0, 3600⟩, 5400, "W1"⟩

/-- Fixture: a remote worklog with the same start and duration but a
different author. -/
def wV : RemoteWorklog := ⟨"V", ⟨2024, 3, 1, 9, 0, 0, 3600⟩, 5400, "W2"⟩

/-- Fixture: a well-formed row for issue `PROJ-1`, 09:00, 1h30m. -/
def rowA : List Cell :=
  [.date 2024 3 1, .time 9 0 0, .time 10 30 0, .time 1 30 0,
   .str "PROJ-1", .str "work"]

/-- Fixture: the record `rowA` normalizes to, at offset +01:00. -/
def recA : WorklogRecord :=
  ⟨⟨2024, 3, 1, 9, 0, 0, 3600⟩, 5400, "PROJ-1", "work"⟩

/-- Fixture: a row for issue `PROJ-2` with the same date, start time and
duration as `rowA`. -/
def rowB : List Cell :=
  [.date 2024 3 1, .time 9 0 0, .time 10 30 0, .time 1 30 0,
   .str "PROJ-2", .str "other"]

/-- Fixture: the record `rowB` normalizes to, at offset +01:00. -/
def recB : WorklogRecord :=
  ⟨⟨2024, 3, 1, 9, 0, 0, 3600⟩, 5400, "PROJ-2", "other"⟩

/-- Fixture: a row with a single field. -/
def rowShort : List Cell := [.str "x"]

/-- Fixture environment. -/
def envW : Env :=
  { fileExists := true
    sheet := [rowA, rowShort, rowA]
    userKey := "U"
    listWorklogs := fun i => if i == "PROJ-1" then [wU, wV] else []
    fetchWorklog := fun _ w => w
    tzOffset := 3600 }

/-- Fixture arguments: dry-run remove over rows 1..10. -/
def argsBase : Args :=
  ⟨false, false, "log.ods", "Sheet1", 1, 10, "https://jira", "tok",
   "remove"⟩

/-- Fixture arguments: yolo remove. -/
def argsYolo : Args := { argsBase with yolo := true }

/-- Fixture arguments: yolo create. -/
def argsCreateY : Args := { argsBase with yolo := true, command := "create" }

/-- Fixture arguments: an unrecognized subcommand. -/
def argsFoo : Args := { argsBase with command := "foo" }

/-- Fixture arguments: both row bounds left at their default 0. -/
def argsDefaults : Args := { argsBase with startRow := 0, endRow := 0 }

/-- Fixture arguments: equal nonzero row bounds. -/
def argsEqualWin : Args := { argsBase with startRow := 3, endRow := 3 }

/-- Fixture: the remove-flow state after processing `rowA` in `envW`
(issue `PROJ-1` cached, both worklogs fetched). -/
def stP1 : RemoveState :=
  ⟨[("PROJ-1", [wU, wV])], [(wU, wU), (wV, wV)]⟩

/-- Fixture: the events of processing `rowA` from the empty state in
`envW` with `argsYolo`: populate the `PROJ-1` cache, then delete the one
matching worklog `W1`. -/
def evtsA : List Event :=
  [.listWorklogs "PROJ-1", .print (.loadingWorklogs "PROJ-1"),
   .print .dot, .fetchWorklog "PROJ-1" "W1",
   .print .dot, .fetchWorklog "PROJ-1" "W2",
   .print .endLoading,
   .print (.deleting "W1" "PROJ-1"), .deleteWorklog "W1"]

/-! ### Shared lemmas -/

/-- Events produced by a `foldRows` run all satisfy a predicate that
each step's events satisfy. -/
theorem foldRows_events_pred {σ : Type}
    (step : σ → List Cell → Option (List Event × σ)) (P : Event → Prop)
    (hstep : ∀ st row evts st', step st row = some (evts, st') →
      ∀ e ∈ evts, P e) :
    ∀ (rows : List (List Cell)) (st : σ),
      ∀ e ∈ (foldRows step rows st).1, P e := by
  intro rows
  induction rows with
  | nil => intro st e he; simp [foldRows] at he
  | cons row rest ih =>
      intro st e he
      unfold foldRows at he
      cases hs : step st row with
      | none => rw [hs] at he; simp at he
      | some pr =>
          rw [hs] at he
          simp only [List.mem_append] at he
          rcases he with h | h
          · exact hstep st row pr.1 pr.2 (by rw [hs]) e h
          · exact ih pr.2 e h

/-- Membership in the matching scan: exactly the action events of the
cached entries that satisfy the heuristic. -/
theorem mem_scanEvents (a : Args) (u : String) (r : WorklogRecord)
    (ws : List (RemoteWorklog × RemoteWorklog)) (e : Event) :
    e ∈ scanEvents a u r ws ↔
      ∃ p ∈ ws, matchesRecord u r p.1 = true ∧ e ∈ scanActs a r p.1 := by
  unfold scanEvents
  rw [List.mem_flatMap]
  constructor
  · rintro ⟨p, hp, he⟩
    refine ⟨p, hp, ?_⟩
    cases hm : matchesRecord u r p.1 with
    | false => rw [hm] at he; simp at he
    | true => rw [hm] at he; simp at he; exact ⟨rfl, he⟩
  · rintro ⟨p, hp, hm, he⟩
    exact ⟨p, hp, by rw [hm]; simpa using he⟩

/-- Membership in a single match's action list. -/
theorem mem_scanActs (a : Args) (r : WorklogRecord) (w : RemoteWorklog)
    (e : Event) :
    e ∈ scanActs a r w ↔
      (a.yolo = true ∧ (e = .print (.deleting w.id r.issueId)
          ∨ e = .deleteWorklog w.id))
        ∨ (a.yolo = false ∧ e = .print (.wouldDelete w.id r.issueId)) := by
  unfold scanActs
  cases hy : a.yolo <;> simp [hy]

/-- In yolo mode the scan performs one deletion per matching cached
entry. -/
theorem countP_scanEvents_delete (a : Args) (u : String)
    (r : WorklogRecord) (hy : a.yolo = true) :
    ∀ ws : List (RemoteWorklog × RemoteWorklog),
      (scanEvents a u r ws).countP isDelete
        = ws.countP (fun p => matchesRecord u r p.1) := by
  intro ws
  induction ws with
  | nil => simp [scanEvents]
  | cons p rest ih =>
      rw [scanEvents, List.flatMap_cons, List.countP_append,
        ← scanEvents, ih, List.countP_cons]
      cases hm : matchesRecord u r p.1 <;>
        simp [hm, scanActs, hy, isDelete, Nat.add_comm]

/-- The scan emits no `addWorklog` and, in dry-run mode, no deletion
either; spelled as: every scan event in dry-run mode is a report. -/
theorem scanEvents_dry_no_mutation (a : Args) (u : String)
    (r : WorklogRecord) (ws : List (RemoteWorklog × RemoteWorklog))
    (hy : a.yolo = false) :
    ∀ e ∈ scanEvents a u r ws, isMutation e = false := by
  intro e he
  rcases (mem_scanEvents a u r ws e).mp he with ⟨p, _, _, ha⟩
  rcases (mem_scanActs a r p.1 e).mp ha with ⟨hyT, _⟩ | ⟨_, rfl⟩
  · rw [hy] at hyT; cases hyT
  · rfl

/-- Cache population performs no creation or deletion. -/
theorem populateEvents_no_mutation (i : String)
    (l : List RemoteWorklog) :
    ∀ e ∈ populateEvents i l, isMutation e = false := by
  intro e he
  unfold populateEvents at he
  rcases List.mem_cons.mp he with rfl | he
  · rfl
  rcases List.mem_cons.mp he with rfl | he
  · rfl
  rcases List.mem_append.mp he with he | he
  · rcases List.mem_flatMap.mp he with ⟨w, _, hw⟩
    rcases List.mem_cons.mp hw with rfl | hw
    · rfl
    rcases List.mem_cons.mp hw with rfl | hw
    · rfl
    cases hw
  · rcases List.mem_singleton.mp he with rfl
    rfl

/-- Dict key membership after appending one binding. -/
theorem hasIssue_append (l : List (String × List RemoteWorklog))
    (j : String) (v : List RemoteWorklog) (i : String) :
    hasIssue (l ++ [(j, v)]) i = (hasIssue l i || (j == i)) := by
  unfold hasIssue
  rw [List.any_append]
  simp

/-- The per-worklog dot-and-fetch block contains no listing call. -/
theorem dots_count_list (j i : String) :
    ∀ l : List RemoteWorklog,
      (l.flatMap (fun w => [Event.print .dot, .fetchWorklog j w.id])).count
          (Event.listWorklogs i) = 0 := by
  intro l
  induction l with
  | nil => simp
  | cons w rest ih =>
      rw [List.flatMap_cons, List.count_append, ih]
      simp [List.count_cons]

/-- Fetch-call count inside the per-worklog dot-and-fetch block. -/
theorem dots_count_fetch (j i wid : String) :
    ∀ l : List RemoteWorklog,
      (l.flatMap (fun w => [Event.print .dot, .fetchWorklog j w.id])).count
          (Event.fetchWorklog i wid)
        = if j == i then l.countP (fun w => w.id == wid) else 0 := by
  intro l
  induction l with
  | nil => cases h : (j == i) <;> simp [h]
  | cons w rest ih =>
      rw [List.flatMap_cons, List.count_append, ih]
      cases h : (j == i)
      · have : j ≠ i := by simpa using h
        simp [List.count_cons, this]
      · have hj : j = i := eq_of_beq h
        subst hj
        rw [List.countP_cons]
        cases hw : (w.id == wid)
        · have hne : w.id ≠ wid := by simpa using hw
          simp [List.count_cons, hw, hne, Ne.symm hne]
        · have heq : w.id = wid := eq_of_beq hw
          simp [List.count_cons, hw, heq, Nat.add_comm]

/-- Listing-call count of one cache population. -/
theorem populate_count_list (j i : String) (l : List RemoteWorklog) :
    (populateEvents j l).count (Event.listWorklogs i)
      = if j == i then 1 else 0 := by
  unfold populateEvents
  rw [List.count_append, List.count_cons, List.count_cons,
    dots_count_list j i l]
  cases h : (j == i)
  · have : j ≠ i := by simpa using h
    simp [List.count_cons, this, Ne.symm this]
  · have hj : j = i := eq_of_beq h
    subst hj
    simp [List.count_cons]

/-- Fetch-call count of one cache population. -/
theorem populate_count_fetch (j i wid : String) (l : List RemoteWorklog) :
    (populateEvents j l).count (Event.fetchWorklog i wid)
      = if j == i then l.countP (fun w => w.id == wid) else 0 := by
  unfold populateEvents
  rw [List.count_append, List.count_cons, List.count_cons,
    dots_count_fetch j i wid l]
  cases h : (j == i) <;> simp [List.count_cons, h]

/-- The matching scan makes no listing call. -/
theorem scan_count_list (a : Args) (u : String) (r : WorklogRecord)
    (ws : List (RemoteWorklog × RemoteWorklog)) (i : String) :
    (scanEvents a u r ws).count (Event.listWorklogs i) = 0 := by
  rw [List.count_eq_zero]
  intro he
  rcases (mem_scanEvents a u r ws _).mp he with ⟨p, _, _, ha⟩
  rcases (mem_scanActs a r p.1 _).mp ha with ⟨_, h | h⟩ | ⟨_, h⟩ <;>
    cases h

/-- The matching scan makes no detail-fetch call. -/
theorem scan_count_fetch (a : Args) (u : String) (r : WorklogRecord)
    (ws : List (RemoteWorklog × RemoteWorklog)) (i wid : String) :
    (scanEvents a u r ws).count (Event.fetchWorklog i wid) = 0 := by
  rw [List.count_eq_zero]
  intro he
  rcases (mem_scanEvents a u r ws _).mp he with ⟨p, _, _, ha⟩
  rcases (mem_scanActs a r p.1 _).mp ha with ⟨_, h | h⟩ | ⟨_, h⟩ <;>
    cases h

/-- Cache population never deletes. -/
theorem populate_no_delete (j : String) (l : List RemoteWorklog)
    (wid : String) : Event.deleteWorklog wid ∉ populateEvents j l := by
  intro h
  exact absurd (populateEvents_no_mutation j l _ h) (by simp [isMutation])

/-- Cache population never prints a would-delete report. -/
theorem populate_no_wouldDelete (j : String) (l : List RemoteWorklog)
    (wid i : String) :
    Event.print (.wouldDelete wid i) ∉ populateEvents j l := by
  intro h
  unfold populateEvents at h
  rcases List.mem_cons.mp h with h | h
  · cases h
  rcases List.mem_cons.mp h with h | h
  · cases h
  rcases List.mem_append.mp h with h | h
  · rcases List.mem_flatMap.mp h with ⟨w, _, hw⟩
    rcases List.mem_cons.mp hw with h | hw
    · cases h
    rcases List.mem_cons.mp hw with h | hw
    · cases h
    cases hw
  · rcases List.mem_singleton.mp h with h
    cases h

/-- The real scan over the dict coincides with the variant scan over
the dict's keys. -/
theorem scanEvents_eq_variant (a : Args) (u : String)
    (r : WorklogRecord) (ws : List (RemoteWorklog × RemoteWorklog)) :
    scanEvents a u r ws = scanEventsV a u r (ws.map Prod.fst) := by
  unfold scanEvents scanEventsV
  rw [List.flatMap_map]

/-- In dry-run mode a create-flow step only reports. -/
theorem processCreateRow_dry_no_mutation (a : Args) (tz : Int)
    (hy : a.yolo = false) :
    ∀ (row : List Cell) (evts : List Event) (u : Unit),
      processCreateRow a tz row = some (evts, u) →
      ∀ e ∈ evts, isMutation e = false := by
  intro row evts u hp e he
  unfold processCreateRow at hp
  cases hn : normalizeRow tz row <;> rw [hn] at hp
  · cases hp
    rcases List.mem_singleton.mp he with rfl
    rfl
  · cases hp
  · rw [hy] at hp
    simp only [Bool.false_eq_true, if_false] at hp
    cases hp
    rcases List.mem_singleton.mp he with rfl
    rfl

/-- In dry-run mode a remove-flow step lists and fetches but never
creates or deletes. -/
theorem processRemoveRow_dry_no_mutation (env : Env) (a : Args)
    (hy : a.yolo = false) :
    ∀ (st : RemoveState) (row : List Cell) (evts : List Event)
      (st' : RemoveState),
      processRemoveRow env a st row = some (evts, st') →
      ∀ e ∈ evts, isMutation e = false := by
  intro st row evts st' hp e he
  unfold processRemoveRow at hp
  cases hn : normalizeRow env.tzOffset row <;> rw [hn] at hp
  · cases hp
    rcases List.mem_singleton.mp he with rfl
    rfl
  · cases hp
  · rename_i r
    cases hHas : hasIssue st.issues r.issueId
    · simp only [hHas, Bool.false_eq_true, if_false] at hp
      cases hp
      rcases List.mem_append.mp he with h | h
      · exact populateEvents_no_mutation _ _ e h
      · exact scanEvents_dry_no_mutation a env.userKey r _ hy e h
    · simp only [hHas, if_true] at hp
      cases hp
      rcases List.mem_append.mp he with h | h
      · cases h
      · exact scanEvents_dry_no_mutation a env.userKey r _ hy e h

/-- The pre-check dry-run notice is a plain console message. -/
theorem e0_no_external (a : Args) :
    ∀ e ∈ (if a.yolo then ([] : List Event)
        else [Event.print .dryRunNotice]), isExternalAccess e = false := by
  intro e he
  cases hy : a.yolo <;> rw [hy] at he
  · rcases List.mem_singleton.mp he with rfl
    rfl
  · cases he

/-- A trace of pre-check messages followed by one error message touches
nothing external and contains an error print. -/
theorem exit_trace_props (e0 : List Event)
    (he0 : ∀ e ∈ e0, isExternalAccess e = false) (m : Msg)
    (hm : isErrorPrint (.print m) = true)
    (hx : isExternalAccess (Event.print m) = false) :
    (∀ e ∈ e0 ++ [Event.print m], isExternalAccess e = false)
    ∧ (∃ e ∈ e0 ++ [Event.print m], isErrorPrint e = true) := by
  constructor
  · intro e he
    rcases List.mem_append.mp he with h | h
    · exact he0 e h
    · rcases List.mem_singleton.mp h with rfl
      exact hx
  · exact ⟨.print m, List.mem_append_right _ (List.mem_singleton_self _),
      hm⟩

/-! ### Claims -/

/-- C5: for every successfully normalized row, the computed duration in
seconds equals exactly h*3600 + m*60 + s, where h, m, s are the
components of the row's duration cell. -/
theorem duration_seconds_formula (tz : Int) (row : List Cell)
    (h m s : Int) (r : WorklogRecord)
    (hd : row.getD 3 (.str "") = Cell.time h m s)
    (hn : normalizeRow tz row = .ok r) :
    r.durationSeconds = h * 3600 + m * 60 + s := by
  unfold normalizeRow at hn
  split at hn
  · cases hn
  · split at hn
    · rename_i hq1 hq2 hq3 hq4 hq5
      rw [hd] at hq3
      simp only [Cell.asTime, Option.some.injEq, Prod.mk.injEq] at hq3
      obtain ⟨rfl, rfl, rfl⟩ := hq3
      cases hn
      show s + m * 60 + h * 3600 = h * 3600 + m * 60 + s
      omega
    · cases hn

/-- C5 witness: the row (09:00-10:30, duration 01:30:00, PROJ-1)
normalizes to 1*3600 + 30*60 + 0 = 5400 seconds. -/
theorem duration_seconds_formula_witness :
    normalizeRow 3600 rowA = .ok recA
    ∧ recA.durationSeconds = 1 * 3600 + 30 * 60 + 0 :=
  ⟨by decide,
   duration_seconds_formula 3600 rowA 1 30 0 recA (by decide) (by decide)⟩

/-- C6: a row with fewer than 6 fields is skipped with a warning in
both flows — the step succeeds (no exception), produces only the
warning message (no record, no API call), leaves the remove-flow state
unchanged, and the fold continues with the next row. -/
theorem short_rows_skipped_nonfatal (env : Env) (a : Args)
    (st : RemoveState) (row : List Cell) (hlen : row.length < fmapLen) :
    processCreateRow a env.tzOffset row
        = some ([.print (.warnShortRow row)], ())
    ∧ processRemoveRow env a st row
        = some ([.print (.warnShortRow row)], st)
    ∧ (∀ rest : List (List Cell),
        foldRows (fun _ => processCreateRow a env.tzOffset) (row :: rest) ()
          = (.print (.warnShortRow row)
              :: (foldRows (fun _ => processCreateRow a env.tzOffset)
                    rest ()).1,
             (foldRows (fun _ => processCreateRow a env.tzOffset)
                rest ()).2))
    ∧ (∀ rest : List (List Cell),
        foldRows (processRemoveRow env a) (row :: rest) st
          = (.print (.warnShortRow row)
              :: (foldRows (processRemoveRow env a) rest st).1,
             (foldRows (processRemoveRow env a) rest st).2)) := by
  have hskip : normalizeRow env.tzOffset row = .skip := by
    unfold normalizeRow
    rw [if_pos hlen]
  have hc : processCreateRow a env.tzOffset row
      = some ([.print (.warnShortRow row)], ()) := by
    unfold processCreateRow
    rw [hskip]
  have hr : processRemoveRow env a st row
      = some ([.print (.warnShortRow row)], st) := by
    unfold processRemoveRow
    rw [hskip]
  refine ⟨hc, hr, ?_, ?_⟩
  · intro rest
    simp [foldRows, hc]
  · intro rest
    simp [foldRows, hr]

/-- C6 witness: the one-field row is skipped with a warning in both
flows and processing continues to the next row. -/
theorem short_rows_skipped_nonfatal_witness :
    rowShort.length < fmapLen
    ∧ processCreateRow argsBase envW.tzOffset rowShort
        = some ([.print (.warnShortRow rowShort)], ())
    ∧ processRemoveRow envW argsBase ⟨[], []⟩ rowShort
        = some ([.print (.warnShortRow rowShort)], ⟨[], []⟩)
    ∧ foldRows (processRemoveRow envW argsBase) [rowShort, rowA] ⟨[], []⟩
        = (.print (.warnShortRow rowShort)
            :: (foldRows (processRemoveRow envW argsBase) [rowA]
                  ⟨[], []⟩).1,
           (foldRows (processRemoveRow envW argsBase) [rowA]
              ⟨[], []⟩).2) :=
  ⟨by decide,
   (short_rows_skipped_nonfatal envW argsBase ⟨[], []⟩ rowShort
     (by decide)).1,
   (short_rows_skipped_nonfatal envW argsBase ⟨[], []⟩ rowShort
     (by decide)).2.1,
   (short_rows_skipped_nonfatal envW argsBase ⟨[], []⟩ rowShort
     (by decide)).2.2.2 [rowA]⟩

/-- C1: in dry-run mode (the `--yolo` flag absent) no worklog-creation
and no worklog-deletion API call ever appears in the run's trace,
whatever the input, in either subcommand. -/
theorem dry_run_makes_no_create_or_delete_calls (env : Env) (a : Args)
    (hy : a.yolo = false) :
    ∀ e ∈ (run env a).trace, isMutation e = false := by
  intro e he
  unfold run at he
  split at he
  · unfold mainProg at he
    simp only [hy, Bool.false_eq_true, if_false] at he
    split at he
    · simp only [RunResult.mk.injEq] at he
      rcases List.mem_append.mp he with h | h
      · rcases List.mem_singleton.mp h with rfl; rfl
      · rcases List.mem_singleton.mp h with rfl; rfl
    split at he
    · rcases List.mem_append.mp he with h | h
      · rcases List.mem_singleton.mp h with rfl; rfl
      · rcases List.mem_singleton.mp h with rfl; rfl
    split at he
    · rcases List.mem_append.mp he with h | h
      · rcases List.mem_singleton.mp h with rfl; rfl
      · rcases List.mem_singleton.mp h with rfl; rfl
    split at he
    · rcases List.mem_append.mp he with h | h
      · rcases List.mem_append.mp h with h | h
        · rcases List.mem_singleton.mp h with rfl; rfl
        · rcases List.mem_cons.mp h with rfl | h
          · rfl
          rcases List.mem_singleton.mp h with rfl; rfl
      · exact foldRows_events_pred _ _
          (fun st row evts st' hp =>
            processCreateRow_dry_no_mutation a env.tzOffset hy
              row evts st' hp)
          env.sheet () e h
    split at he
    · rcases List.mem_append.mp he with h | h
      · rcases List.mem_append.mp h with h | h
        · rcases List.mem_singleton.mp h with rfl; rfl
        · rcases List.mem_cons.mp h with rfl | h
          · rfl
          rcases List.mem_singleton.mp h with rfl; rfl
      · exact foldRows_events_pred _ _
          (processRemoveRow_dry_no_mutation env a hy)
          env.sheet ⟨[], []⟩ e h
    · rcases List.mem_append.mp he with h | h
      · rcases List.mem_append.mp h with h | h
        · rcases List.mem_singleton.mp h with rfl; rfl
        · rcases List.mem_cons.mp h with rfl | h
          · rfl
          rcases List.mem_singleton.mp h with rfl; rfl
      · rcases List.mem_singleton.mp h with rfl; rfl
  · rcases List.mem_singleton.mp he with rfl
    rfl

/-- C1 witness: a dry-run remove over the fixture world produces a
trace with no creation and no deletion call. -/
theorem dry_run_makes_no_create_or_delete_calls_witness :
    argsBase.yolo = false
    ∧ ∀ e ∈ (run envW argsBase).trace, isMutation e = false :=
  ⟨rfl, dry_run_makes_no_create_or_delete_calls envW argsBase rfl⟩

/-- A run whose row window fails a sanity check (`end == start`, or
`0 < end < start`) exits nonzero after printing an error, with no file
or API access in its trace. -/
theorem run_bad_window (env : Env) (a : Args)
    (hw : a.endRow = a.startRow
        ∨ (0 < a.endRow ∧ a.endRow < a.startRow)) :
    (∃ n, (run env a).outcome = .exited n ∧ n ≠ 0)
    ∧ (∀ e ∈ (run env a).trace, isExternalAccess e = false)
    ∧ (∃ e ∈ (run env a).trace, isErrorPrint e = true) := by
  unfold run
  split
  · unfold mainProg
    cases hf : env.fileExists
    · simp only [hf, Bool.not_false, if_true]
      obtain ⟨h1, h2⟩ := exit_trace_props _ (e0_no_external a)
        (.errFileMissing a.file) rfl rfl
      exact ⟨⟨1, rfl, one_ne_zero⟩, h1, h2⟩
    · simp only [hf, Bool.not_true, Bool.false_eq_true, if_false]
      cases hb1 : (a.endRow > 0 && a.endRow < a.startRow)
      · have hb2 : (a.endRow == a.startRow) = true := by
          rcases hw with hw | hw
          · exact beq_iff_eq.mpr hw
          · exfalso
            simp at hb1
            omega
        simp only [hb1, Bool.false_eq_true, if_false, hb2, if_true]
        obtain ⟨h1, h2⟩ := exit_trace_props _ (e0_no_external a)
          .errRowIndexEqual rfl rfl
        exact ⟨⟨1, rfl, one_ne_zero⟩, h1, h2⟩
      · simp only [hb1, if_true]
        obtain ⟨h1, h2⟩ := exit_trace_props _ (e0_no_external a)
          .errRowIndexOrder rfl rfl
        exact ⟨⟨1, rfl, one_ne_zero⟩, h1, h2⟩
  · refine ⟨⟨2, rfl, two_ne_zero⟩, ?_, ?_⟩
    · intro e he
      rcases List.mem_singleton.mp he with rfl
      rfl
    · exact ⟨_, List.mem_singleton_self _, rfl⟩

/-- C7: an end row equal to the start row, or less than it while
positive, makes the program print an error and exit nonzero, with no
spreadsheet read and no remote API call in the trace. -/
theorem bad_row_window_rejected_early (env : Env) (a : Args)
    (hw : a.endRow = a.startRow
        ∨ (0 < a.endRow ∧ a.endRow < a.startRow)) :
    (∃ n, (run env a).outcome = .exited n ∧ n ≠ 0)
    ∧ (∀ e ∈ (run env a).trace, isExternalAccess e = false)
    ∧ (∃ e ∈ (run env a).trace, isErrorPrint e = true) :=
  run_bad_window env a hw

/-- C7 witness: start = end = 3 is rejected before any file or API
access. -/
theorem bad_row_window_rejected_early_witness :
    argsEqualWin.endRow = argsEqualWin.startRow
    ∧ ((∃ n, (run envW argsEqualWin).outcome = .exited n ∧ n ≠ 0)
      ∧ (∀ e ∈ (run envW argsEqualWin).trace, isExternalAccess e = false)
      ∧ (∃ e ∈ (run envW argsEqualWin).trace, isErrorPrint e = true)) :=
  ⟨rfl, bad_row_window_rejected_early envW argsEqualWin (Or.inl rfl)⟩

/-- C9: with both row bounds left at their default 0, the end-equals-
start check fires: the program prints an error and exits nonzero with
no sheet load (and no other external access) in the trace. -/
theorem default_row_window_rejected (env : Env) (a : Args)
    (hs : a.startRow = 0) (he : a.endRow = 0) :
    (∃ n, (run env a).outcome = .exited n ∧ n ≠ 0)
    ∧ (∀ e ∈ (run env a).trace,
        (∀ f sh st li, e ≠ .loadSheet f sh st li)
          ∧ isExternalAccess e = false)
    ∧ (∃ e ∈ (run env a).trace, isErrorPrint e = true) := by
  obtain ⟨h1, h2, h3⟩ := run_bad_window env a (Or.inl (by rw [hs, he]))
  refine ⟨h1, ?_, h3⟩
  intro e hm
  refine ⟨?_, h2 e hm⟩
  intro f sh st li hEq
  have := h2 e hm
  rw [hEq] at this
  cases this

/-- C9 witness: the fixture arguments with both bounds 0 are rejected
with no external access. -/
theorem default_row_window_rejected_witness :
    argsDefaults.startRow = 0 ∧ argsDefaults.endRow = 0
    ∧ ((∃ n, (run envW argsDefaults).outcome = .exited n ∧ n ≠ 0)
      ∧ (∀ e ∈ (run envW argsDefaults).trace,
          (∀ f sh st li, e ≠ .loadSheet f sh st li)
            ∧ isExternalAccess e = false)
      ∧ (∃ e ∈ (run envW argsDefaults).trace, isErrorPrint e = true)) :=
  ⟨rfl, rfl, default_row_window_rejected envW argsDefaults rfl rfl⟩

/-- C8 counterexample: invoked with subcommand "foo", the program does
exit nonzero without touching anything, but the message is argparse's
invalid-choice usage error — no "unknown command" message is ever
printed, refuting the claim's description of the output. -/
theorem unknown_command_message_counterexample :
    (run envW argsFoo).outcome = .exited 2
    ∧ (run envW argsFoo).trace.all (fun e => !isUnknownCmdMsg e) = true
    ∧ (run envW argsFoo).trace = [.print (.usageInvalidChoice "foo")] := by
  decide

/-- C8 (amended): any subcommand other than "create" and "remove" is
rejected by argument parsing with exit status 2 and an invalid-choice
usage error, before any row processing or API call; the script's own
"unknown command" branch never runs. -/
theorem unknown_command_rejected_at_parse (env : Env) (a : Args)
    (h1 : a.command ≠ "create") (h2 : a.command ≠ "remove") :
    run env a = ⟨[.print (.usageInvalidChoice a.command)], .exited 2⟩
    ∧ (∀ e ∈ (run env a).trace, isExternalAccess e = false
        ∧ isUnknownCmdMsg e = false) := by
  have hc : (a.command == "create" || a.command == "remove") = false := by
    simp [h1, h2]
  have hr : run env a
      = ⟨[.print (.usageInvalidChoice a.command)], .exited 2⟩ := by
    unfold run
    rw [hc]
    simp
  refine ⟨hr, ?_⟩
  intro e he
  rw [hr] at he
  rcases List.mem_singleton.mp he with rfl
  exact ⟨rfl, rfl⟩

/-- C8 witness: the subcommand "foo" is rejected at parse time with
exit status 2 and no external access. -/
theorem unknown_command_rejected_at_parse_witness :
    run envW argsFoo
        = ⟨[.print (.usageInvalidChoice "foo")], .exited 2⟩
    ∧ (∀ e ∈ (run envW argsFoo).trace, isExternalAccess e = false
        ∧ isUnknownCmdMsg e = false) :=
  unknown_command_rejected_at_parse envW argsFoo
    (by decide) (by decide)

/-- Deletion events of the scan are exactly the matching entries'
ids, in yolo mode. -/
theorem delete_mem_scanEvents (a : Args) (u : String)
    (r : WorklogRecord) (ws : List (RemoteWorklog × RemoteWorklog))
    (wid : String) :
    Event.deleteWorklog wid ∈ scanEvents a u r ws ↔
      (a.yolo = true ∧ ∃ p ∈ ws, p.1.id = wid ∧ p.1.authorKey = u
        ∧ dtEq p.1.started r.started = true
        ∧ p.1.timeSpentSeconds = r.durationSeconds) := by
  constructor
  · intro he
    rcases (mem_scanEvents a u r ws _).mp he with ⟨p, hp, hm, ha⟩
    rcases (mem_scanActs a r p.1 _).mp ha with ⟨hy, h | h⟩ | ⟨_, h⟩
    · cases h
    · simp only [matchesRecord, Bool.and_eq_true, beq_iff_eq] at hm
      obtain ⟨⟨hma, hms⟩, hmt⟩ := hm
      rcases h with ⟨rfl⟩
      exact ⟨hy, p, hp, rfl, hma, hms, hmt⟩
    · cases h
  · rintro ⟨hy, p, hp, rfl, hma, hms, hmt⟩
    refine (mem_scanEvents a u r ws _).mpr ⟨p, hp, ?_, ?_⟩
    · simp [matchesRecord, hma, hms, hmt]
    · exact (mem_scanActs a r p.1 _).mpr (Or.inl ⟨hy, Or.inr rfl⟩)

/-- Would-delete reports of the scan are exactly the matching entries'
ids, in dry-run mode. -/
theorem wouldDelete_mem_scanEvents (a : Args) (u : String)
    (r : WorklogRecord) (ws : List (RemoteWorklog × RemoteWorklog))
    (wid i : String) :
    Event.print (.wouldDelete wid i) ∈ scanEvents a u r ws ↔
      (a.yolo = false ∧ i = r.issueId
        ∧ ∃ p ∈ ws, p.1.id = wid ∧ p.1.authorKey = u
          ∧ dtEq p.1.started r.started = true
          ∧ p.1.timeSpentSeconds = r.durationSeconds) := by
  constructor
  · intro he
    rcases (mem_scanEvents a u r ws _).mp he with ⟨p, hp, hm, ha⟩
    rcases (mem_scanActs a r p.1 _).mp ha with ⟨_, h | h⟩ | ⟨hy, h⟩
    · cases h
    · cases h
    · simp only [matchesRecord, Bool.and_eq_true, beq_iff_eq] at hm
      obtain ⟨⟨hma, hms⟩, hmt⟩ := hm
      rcases h with ⟨rfl⟩
      exact ⟨hy, rfl, p, hp, rfl, hma, hms, hmt⟩
  · rintro ⟨hy, rfl, p, hp, rfl, hma, hms, hmt⟩
    refine (mem_scanEvents a u r ws _).mpr ⟨p, hp, ?_, ?_⟩
    · simp [matchesRecord, hma, hms, hmt]
    · exact (mem_scanActs a r p.1 _).mpr (Or.inr ⟨hy, rfl⟩)

/-- C2: in the remove flow, given a normalized record, a cached remote
worklog is acted upon (a deletion call in yolo mode, a would-delete
report in dry-run mode) exactly when its author key equals the
authenticated user's key, its parsed start instant equals the record's,
and its duration equals the record's; every match in the scanned cache
is acted upon (one action per matching entry — the scan does not stop),
and non-matching entries produce nothing. -/
theorem remove_acts_iff_heuristic_matches (env : Env) (a : Args)
    (st : RemoveState) (row : List Cell) (r : WorklogRecord)
    (evts : List Event) (st' : RemoveState)
    (hn : normalizeRow env.tzOffset row = .ok r)
    (hp : processRemoveRow env a st row = some (evts, st')) :
    (∀ wid, Event.deleteWorklog wid ∈ evts ↔
        (a.yolo = true ∧ ∃ p ∈ st'.worklogs, p.1.id = wid
          ∧ p.1.authorKey = env.userKey
          ∧ dtEq p.1.started r.started = true
          ∧ p.1.timeSpentSeconds = r.durationSeconds))
    ∧ (∀ wid, Event.print (.wouldDelete wid r.issueId) ∈ evts ↔
        (a.yolo = false ∧ ∃ p ∈ st'.worklogs, p.1.id = wid
          ∧ p.1.authorKey = env.userKey
          ∧ dtEq p.1.started r.started = true
          ∧ p.1.timeSpentSeconds = r.durationSeconds))
    ∧ (a.yolo = true →
        evts.countP isDelete
          = st'.worklogs.countP
              (fun p => matchesRecord env.userKey r p.1)) := by
  unfold processRemoveRow at hp
  rw [hn] at hp
  have main : ∀ (pop : List Event) (W : List (RemoteWorklog × RemoteWorklog)),
      (∀ wid, Event.deleteWorklog wid ∉ pop) →
      (∀ wid i, Event.print (.wouldDelete wid i) ∉ pop) →
      pop.countP isDelete = 0 →
      evts = pop ++ scanEvents a env.userKey r W →
      st'.worklogs = W →
      (∀ wid, Event.deleteWorklog wid ∈ evts ↔
        (a.yolo = true ∧ ∃ p ∈ st'.worklogs, p.1.id = wid
          ∧ p.1.authorKey = env.userKey
          ∧ dtEq p.1.started r.started = true
          ∧ p.1.timeSpentSeconds = r.durationSeconds))
      ∧ (∀ wid, Event.print (.wouldDelete wid r.issueId) ∈ evts ↔
        (a.yolo = false ∧ ∃ p ∈ st'.worklogs, p.1.id = wid
          ∧ p.1.authorKey = env.userKey
          ∧ dtEq p.1.started r.started = true
          ∧ p.1.timeSpentSeconds = r.durationSeconds))
      ∧ (a.yolo = true →
        evts.countP isDelete
          = st'.worklogs.countP
              (fun p => matchesRecord env.userKey r p.1)) := by
    rintro pop W hnd hnw hcz rfl rfl
    refine ⟨?_, ?_, ?_⟩
    · intro wid
      rw [List.mem_append]
      constructor
      · rintro (h | h)
        · exact absurd h (hnd wid)
        · exact (delete_mem_scanEvents a env.userKey r
            st'.worklogs wid).mp h
      · intro h
        exact Or.inr ((delete_mem_scanEvents a env.userKey r
          st'.worklogs wid).mpr h)
    · intro wid
      rw [List.mem_append]
      constructor
      · rintro (h | h)
        · exact absurd h (hnw wid r.issueId)
        · obtain ⟨hy, _, hrest⟩ :=
            (wouldDelete_mem_scanEvents a env.userKey r
              st'.worklogs wid r.issueId).mp h
          exact ⟨hy, hrest⟩
      · rintro ⟨hy, hrest⟩
        exact Or.inr ((wouldDelete_mem_scanEvents a env.userKey r
          st'.worklogs wid r.issueId).mpr ⟨hy, rfl, hrest⟩)
    · intro hy
      rw [List.countP_append, hcz,
        countP_scanEvents_delete a env.userKey r hy st'.worklogs]
      omega
  cases hHas : hasIssue st.issues r.issueId
  · simp only [hHas, Bool.false_eq_true, if_false] at hp
    cases hp
    exact main _ _ (fun wid => populate_no_delete _ _ wid)
      (fun wid i => populate_no_wouldDelete _ _ wid i)
      (List.countP_eq_zero.mpr (fun e he => by
        have := populateEvents_no_mutation _ _ e he
        cases e with
        | deleteWorklog _ => cases this
        | _ => simp [isDelete]))
      rfl rfl
  · simp only [hHas, if_true] at hp
    cases hp
    exact main [] _ (fun wid h => by cases h)
      (fun wid i h => by cases h) rfl rfl rfl

/-- C2 witness: among two cached worklogs with equal start and duration
but different authors, only the one authored by the authenticated user
is deleted. -/
theorem remove_acts_iff_heuristic_matches_witness :
    processRemoveRow envW argsYolo ⟨[], []⟩ rowA = some (evtsA, stP1)
    ∧ Event.deleteWorklog "W1" ∈ evtsA
    ∧ Event.deleteWorklog "W2" ∉ evtsA :=
  ⟨by decide,
   ((remove_acts_iff_heuristic_matches envW argsYolo ⟨[], []⟩ rowA recA
       evtsA stP1 (by decide) (by decide)).1 "W1").mpr
     ⟨rfl, (wU, wU), by decide, rfl, rfl, by decide, rfl⟩,
   by decide⟩

/-- C3: the matching scan ranges over the whole worklog cache — every
entry accumulated for any issue so far, not only the current row's
issue — so a cached worklog of a previously seen issue that satisfies
the heuristic is also deleted while processing a row for a different
issue (note no hypothesis ties `p` to `r.issueId`). -/
theorem remove_scan_spans_all_cached_issues (env : Env) (a : Args)
    (st : RemoveState) (row : List Cell) (r : WorklogRecord)
    (p : RemoteWorklog × RemoteWorklog)
    (hn : normalizeRow env.tzOffset row = .ok r)
    (hp : p ∈ st.worklogs)
    (hm : matchesRecord env.userKey r p.1 = true)
    (hy : a.yolo = true) :
    ∃ evts st', processRemoveRow env a st row = some (evts, st')
      ∧ (∀ q ∈ st.worklogs, q ∈ st'.worklogs)
      ∧ Event.deleteWorklog p.1.id ∈ evts := by
  unfold processRemoveRow
  rw [hn]
  cases hHas : hasIssue st.issues r.issueId
  · simp only [hHas, Bool.false_eq_true, if_false]
    refine ⟨_, _, rfl, ?_, ?_⟩
    · intro q hq
      exact List.mem_append_left _ hq
    · exact List.mem_append_right _
        ((mem_scanEvents _ _ _ _ _).mpr
          ⟨p, List.mem_append_left _ hp, hm,
           (mem_scanActs _ _ _ _).mpr (Or.inl ⟨hy, Or.inr rfl⟩)⟩)
  · simp only [hHas, if_true]
    refine ⟨_, _, rfl, fun q hq => hq, ?_⟩
    exact List.mem_append_right _
      ((mem_scanEvents _ _ _ _ _).mpr
        ⟨p, hp, hm,
         (mem_scanActs _ _ _ _).mpr (Or.inl ⟨hy, Or.inr rfl⟩)⟩)

/-- C3 witness: with the PROJ-1 cache already populated, a row for
PROJ-2 with the same start and duration deletes the cached PROJ-1
worklog `W1`. -/
theorem remove_scan_spans_all_cached_issues_witness :
    matchesRecord envW.userKey recB wU = true
    ∧ (wU, wU) ∈ stP1.worklogs
    ∧ recB.issueId = "PROJ-2"
    ∧ ∃ evts st',
        processRemoveRow envW argsYolo stP1 rowB = some (evts, st')
        ∧ (∀ q ∈ stP1.worklogs, q ∈ st'.worklogs)
        ∧ Event.deleteWorklog wU.id ∈ evts :=
  ⟨by decide, by decide, rfl,
   remove_scan_spans_all_cached_issues envW argsYolo stP1 rowB recB
     (wU, wU) (by decide) (by decide) (by decide) rfl⟩

/-- The real fold and the no-detail-storage variant fold agree on every
trace and on crashing, from corresponding states. -/
theorem foldRemove_variant_agrees (env : Env) (a : Args) :
    ∀ (rows : List (List Cell)) (st : RemoveState) (stv : RemoveStateV),
      st.issues = stv.issues → st.worklogs.map Prod.fst = stv.worklogs →
      (foldRows (processRemoveRow env a) rows st).1
          = (foldRows (processRemoveRowV env a) rows stv).1
      ∧ (foldRows (processRemoveRow env a) rows st).2.isSome
          = (foldRows (processRemoveRowV env a) rows stv).2.isSome := by
  intro rows
  induction rows with
  | nil => intro st stv h1 h2; exact ⟨rfl, rfl⟩
  | cons row rest ih =>
      intro st stv h1 h2
      unfold foldRows
      cases hn : normalizeRow env.tzOffset row with
      | skip =>
          rw [processRemoveRow, processRemoveRowV, hn]
          dsimp only
          obtain ⟨ht, ho⟩ := ih st stv h1 h2
          exact ⟨by rw [ht], ho⟩
      | crash =>
          rw [processRemoveRow, processRemoveRowV, hn]
          exact ⟨rfl, rfl⟩
      | ok r =>
          rw [processRemoveRow, processRemoveRowV, hn]
          have hkeys : hasIssue stv.issues r.issueId
              = hasIssue st.issues r.issueId := by rw [h1]
          cases hHas : hasIssue st.issues r.issueId
          · rw [hHas] at hkeys
            simp only [hHas, hkeys, Bool.false_eq_true, if_false]
            have hw : (st.worklogs
                ++ (env.listWorklogs r.issueId).map
                  (fun w => (w, env.fetchWorklog r.issueId w))).map
                    Prod.fst
                = stv.worklogs ++ env.listWorklogs r.issueId := by
              rw [List.map_append, h2, List.map_map]
              have hcomp : (Prod.fst ∘ fun w : RemoteWorklog =>
                  (w, env.fetchWorklog r.issueId w)) = id := rfl
              rw [hcomp, List.map_id]
            obtain ⟨ht, ho⟩ := ih
              ⟨st.issues ++ [(r.issueId, env.listWorklogs r.issueId)],
               st.worklogs ++ (env.listWorklogs r.issueId).map
                 (fun w => (w, env.fetchWorklog r.issueId w))⟩
              ⟨stv.issues ++ [(r.issueId, env.listWorklogs r.issueId)],
               stv.worklogs ++ env.listWorklogs r.issueId⟩
              (by simp [h1]) hw
            refine ⟨?_, ho⟩
            rw [ht, scanEvents_eq_variant, hw]
          · rw [hHas] at hkeys
            simp only [hHas, hkeys, if_true]
            obtain ⟨ht, ho⟩ := ih st stv h1 h2
            refine ⟨?_, ho⟩
            rw [ht, scanEvents_eq_variant, h2]

/-- C10: the remove flow reads only the `worklogs` dict's keys — the
objects returned by the listing call — never the fetched detail values,
so its whole event trace (hence every match and delete decision) and
its crash behaviour coincide with the variant program that skips
storing the fetched details. -/
theorem scan_ignores_fetched_details (env : Env) (a : Args)
    (rows : List (List Cell)) :
    (foldRows (processRemoveRow env a) rows ⟨[], []⟩).1
        = (foldRows (processRemoveRowV env a) rows ⟨[], []⟩).1
    ∧ (foldRows (processRemoveRow env a) rows ⟨[], []⟩).2.isSome
        = (foldRows (processRemoveRowV env a) rows ⟨[], []⟩).2.isSome :=
  foldRemove_variant_agrees env a rows ⟨[], []⟩ ⟨[], []⟩ rfl rfl

/-- A skipped row contributes nothing to mention of any issue. -/
theorem mentionsIssue_cons (tz : Int) (row : List Cell)
    (rest : List (List Cell)) (i : String) :
    mentionsIssue tz (row :: rest) i
      = ((match normalizeRow tz row with
          | .ok r => r.issueId == i
          | _ => false) || mentionsIssue tz rest i) := by
  unfold mentionsIssue
  rw [List.any_cons]

/-- The warning message contributes no API-call events to any count. -/
theorem warn_count_zero (row : List Cell) (e : Event)
    (he : ∀ m : Msg, e ≠ .print m) :
    ([Event.print (.warnShortRow row)] : List Event).count e = 0 := by
  rw [List.count_eq_zero]
  intro h
  rcases List.mem_singleton.mp h with h
  exact he _ h

/-- Listing-call count of a remove-flow fold: exactly one listing per
issue that some normalized row mentions and that is not already
cached. -/
theorem foldRemove_count_list (env : Env) (a : Args) :
    ∀ (rows : List (List Cell)) (st : RemoveState),
      (∀ row ∈ rows, normalizeRow env.tzOffset row ≠ .crash) →
      ∀ i : String,
        (foldRows (processRemoveRow env a) rows st).1.count
            (Event.listWorklogs i)
          = if mentionsIssue env.tzOffset rows i
                && !hasIssue st.issues i then 1 else 0 := by
  intro rows
  induction rows with
  | nil => intro st _ i; simp [foldRows, mentionsIssue]
  | cons row rest ih =>
      intro st hnc i
      have hrest : ∀ q ∈ rest, normalizeRow env.tzOffset q ≠ .crash :=
        fun q hq => hnc q (List.mem_cons_of_mem _ hq)
      unfold foldRows
      cases hn : normalizeRow env.tzOffset row with
      | crash => exact absurd hn (hnc row (List.mem_cons_self _ _))
      | skip =>
          rw [processRemoveRow, hn]
          dsimp only
          rw [List.count_append, ih st hrest i,
            warn_count_zero row _ (fun m h => Event.noConfusion h),
            mentionsIssue_cons, hn]
          simp
      | ok r =>
          rw [processRemoveRow, hn]
          rw [mentionsIssue_cons, hn]
          cases hHas : hasIssue st.issues r.issueId
          · simp only [hHas, Bool.false_eq_true, if_false]
            rw [List.count_append, List.count_append,
              populate_count_list, scan_count_list,
              ih _ hrest i, hasIssue_append]
            by_cases hri : r.issueId = i
            · subst hri
              rw [hHas]
              simp
            · have hb : (r.issueId == i) = false := by
                simpa using hri
              simp [hb]
          · simp only [hHas, if_true]
            rw [List.count_append, List.count_append, scan_count_list,
              ih st hrest i]
            by_cases hri : r.issueId = i
            · subst hri
              rw [hHas]
              simp
            · have hb : (r.issueId == i) = false := by
                simpa using hri
              simp [hb]

/-- Fetch-call count of a remove-flow fold: each worklog id of an
issue's listing is fetched as often as it occurs in the listing, once
per issue that a normalized row mentions and that is not already
cached. -/
theorem foldRemove_count_fetch (env : Env) (a : Args) :
    ∀ (rows : List (List Cell)) (st : RemoveState),
      (∀ row ∈ rows, normalizeRow env.tzOffset row ≠ .crash) →
      ∀ (i wid : String),
        (foldRows (processRemoveRow env a) rows st).1.count
            (Event.fetchWorklog i wid)
          = if mentionsIssue env.tzOffset rows i
                && !hasIssue st.issues i
            then (env.listWorklogs i).countP (fun w => w.id == wid)
            else 0 := by
  intro rows
  induction rows with
  | nil => intro st _ i wid; simp [foldRows, mentionsIssue]
  | cons row rest ih =>
      intro st hnc i wid
      have hrest : ∀ q ∈ rest, normalizeRow env.tzOffset q ≠ .crash :=
        fun q hq => hnc q (List.mem_cons_of_mem _ hq)
      unfold foldRows
      cases hn : normalizeRow env.tzOffset row with
      | crash => exact absurd hn (hnc row (List.mem_cons_self _ _))
      | skip =>
          rw [processRemoveRow, hn]
          dsimp only
          rw [List.count_append, ih st hrest i wid,
            warn_count_zero row _ (fun m h => Event.noConfusion h),
            mentionsIssue_cons, hn]
          simp
      | ok r =>
          rw [processRemoveRow, hn]
          rw [mentionsIssue_cons, hn]
          cases hHas : hasIssue st.issues r.issueId
          · simp only [hHas, Bool.false_eq_true, if_false]
            rw [List.count_append, List.count_append,
              populate_count_fetch, scan_count_fetch,
              ih _ hrest i wid, hasIssue_append]
            by_cases hri : r.issueId = i
            · subst hri
              rw [hHas]
              simp
            · have hb : (r.issueId == i) = false := by
                simpa using hri
              simp [hb]
          · simp only [hHas, if_true]
            rw [List.count_append, List.count_append, scan_count_fetch,
              ih st hrest i wid]
            by_cases hri : r.issueId = i
            · subst hri
              rw [hHas]
              simp
            · have hb : (r.issueId == i) = false := by
                simpa using hri
              simp [hb]

/-- C4: within one remove-flow run the per-issue cache is populated at
most once per distinct issue id — the listing call happens exactly once
for each issue id some successfully normalized row mentions (zero times
otherwise), and, when the listing's ids are distinct, each listed
worklog's detail is fetched exactly once — even when several rows
reference the same issue id. -/
theorem remove_cache_populated_once_per_issue (env : Env) (a : Args)
    (rows : List (List Cell))
    (hnc : ∀ row ∈ rows, normalizeRow env.tzOffset row ≠ .crash)
    (i : String) :
    ((foldRows (processRemoveRow env a) rows ⟨[], []⟩).1.count
        (Event.listWorklogs i)
      = if mentionsIssue env.tzOffset rows i then 1 else 0)
    ∧ ∀ w ∈ env.listWorklogs i,
        ((env.listWorklogs i).map RemoteWorklog.id).Nodup →
        (foldRows (processRemoveRow env a) rows ⟨[], []⟩).1.count
            (Event.fetchWorklog i w.id)
          = if mentionsIssue env.tzOffset rows i then 1 else 0 := by
  constructor
  · rw [foldRemove_count_list env a rows ⟨[], []⟩ hnc i]
    simp [hasIssue]
  · intro w hw hnd
    rw [foldRemove_count_fetch env a rows ⟨[], []⟩ hnc i w.id]
    have hone : (env.listWorklogs i).countP (fun x => x.id == w.id)
        = 1 := by
      have hmap : ((env.listWorklogs i).map RemoteWorklog.id).count w.id
          = (env.listWorklogs i).countP (fun x => x.id == w.id) := by
        generalize env.listWorklogs i = l
        induction l with
        | nil => simp
        | cons x xs ihl =>
            simp [List.count_cons, List.countP_cons, ihl]
      rw [← hmap]
      exact List.count_eq_one_of_mem hnd
        (List.mem_map_of_mem RemoteWorklog.id hw)
    rw [hone]
    simp [hasIssue]

/-- C4 witness: in the fixture sheet two rows reference PROJ-1, yet the
listing call for PROJ-1 happens once and worklog W1's detail is fetched
once. -/
theorem remove_cache_populated_once_per_issue_witness :
    ((foldRows (processRemoveRow envW argsYolo) envW.sheet
        ⟨[], []⟩).1.count (Event.listWorklogs "PROJ-1") = 1)
    ∧ ((foldRows (processRemoveRow envW argsYolo) envW.sheet
        ⟨[], []⟩).1.count (Event.fetchWorklog "PROJ-1" "W1") = 1) := by
  have h := remove_cache_populated_once_per_issue envW argsYolo
    envW.sheet (by decide) "PROJ-1"
  constructor
  · rw [h.1]
    decide
  · have h2 := h.2 wU (by decide) (by decide)
    have hid : ("W1" : String) = wU.id := rfl
    rw [hid, h2]
    decide

end Lt2j
